import Mathlib

/-!
Verification of the SEC EDGAR warehouse ingestion pipeline
(`src/ingest/fetch_sec.py`) against its design specification.

The Python source is shallowly embedded: JSON mappings become association
lists in insertion order (Python dicts iterate in insertion order), JSON
scalar values become the `JVal` type (strings, integers, null; numeric
values are modelled as integers), fallible dictionary/list indexing becomes
`Except`, and missing keys become `Option`/`JVal.null` mirroring
`dict.get` defaults.
-/

namespace SecEdgar

/-- A JSON scalar value as it occurs in observation fields: a string, a
number (modelled as an integer), or null (also standing for an absent key,
mirroring `dict.get`'s `None` default). -/
inductive JVal where
  | str (s : String)
  | num (n : Int)
  | null
deriving DecidableEq, Repr

/-- Python truthiness of a `JVal`: empty strings, zero and `None` are falsy. -/
def truthy : JVal → Bool
  | .str s => s != ""
  | .num n => n != 0
  | .null => false

/-- Python `a or b`: returns `a` when `a` is truthy, otherwise `b`. -/
def pyOr (a b : JVal) : JVal :=
  if truthy a then a else b

/-- One XBRL observation, with the fields `normalize_companyfacts` reads via
`ob.get(...)`: an absent key is `JVal.null`. `endDate` embeds the `"end"`
key. -/
structure Obs where
  endDate : JVal
  val : JVal
  accn : JVal
  fy : JVal
  fp : JVal
  form : JVal
  filed : JVal
deriving DecidableEq, Repr

/-- The body of one concept: its `"units"` mapping, unit code to ordered
observation sequence (`body.get("units", {})`; an absent key is `[]`). -/
structure CBody where
  units : List (String × List Obs)
deriving DecidableEq, Repr

/-- The value stored under one namespace key of the `"facts"` mapping:
either a concept-name-to-body mapping, or some non-dict JSON value
(the `isinstance(namespace_facts, dict)` checks distinguish these). -/
inductive NsVal where
  | dict (m : List (String × CBody))
  | nondict
deriving DecidableEq, Repr

/-- A raw companyfacts document: `facts` is the value of the top-level
`"facts"` key (`none` when the key is absent, as in the empty document
`{}`). -/
structure FactsDoc where
  facts : Option (List (String × NsVal))
deriving DecidableEq, Repr

/-- One output Fact Row, with the exact fields and insertion order of the
dict literal built in `normalize_companyfacts`. -/
structure Row where
  cik : String
  ticker : String
  concept : String
  unit : String
  period_end_date : JVal
  val : JVal
  accn : JVal
  fy : JVal
  fp : JVal
  form : JVal
  filed : JVal
deriving DecidableEq, Repr

/-- The composite `f"{namespace}:{fact}"` concept identifier. -/
def conceptName (ns fact : String) : String := ns ++ ":" ++ fact

/-- The hard-coded preferred concept list of `normalize_companyfacts`. -/
def preferredConcepts : List String :=
  ["us-gaap:Revenues", "us-gaap:SalesRevenueNet", "us-gaap:CostOfRevenue",
   "us-gaap:GrossProfit", "us-gaap:NetIncomeLoss", "us-gaap:EarningsPerShareDiluted"]

/-- The available-concept scan: every `namespace:fact` pair reachable under a
namespace whose body is a dict (non-dict namespace bodies are skipped by the
`isinstance` check). -/
def availableConcepts (allFacts : List (String × NsVal)) : List String :=
  allFacts.flatMap (fun p =>
    match p.2 with
    | .dict m => m.map (fun q => conceptName p.1 q.1)
    | .nondict => [])

/-- Python substring membership `needle in hay` on character lists. -/
def listContains (hay needle : List Char) : Bool :=
  hay.tails.any (fun t => needle.isPrefixOf t)

/-- `any(term in c.lower() for term in terms)`: lowercasing is embedded
per character (the concept identifiers involved are ASCII). -/
def matchesAnyTerm (c : String) (terms : List String) : Bool :=
  terms.any (fun t => listContains (c.toList.map Char.toLower) t.toList)

/-- The tiered concept-selection policy of `normalize_companyfacts`
(lines 30–51): the preferred list when any preferred concept is available,
otherwise at most 2 revenue/sales plus at most 2 income/earnings
vocabulary matches, otherwise the first 5 available concepts. -/
def effectiveConcepts (allFacts : List (String × NsVal)) : List String :=
  let available := availableConcepts allFacts
  let originalConceptCount := (preferredConcepts.filter (fun c => available.contains c)).length
  if originalConceptCount = 0 then
    let revenueConcepts := available.filter (fun c => matchesAnyTerm c ["revenue", "sales"])
    let incomeConcepts := available.filter (fun c => matchesAnyTerm c ["income", "earnings"])
    let concepts := revenueConcepts.take 2 ++ incomeConcepts.take 2
    if concepts.isEmpty then available.take 5 else concepts
  else
    preferredConcepts

/-- The innermost loop of `normalize_companyfacts` (lines 62–73): one row per
observation whose `end or fy` is truthy, skipped silently otherwise. -/
def obsRows (cik ticker concept unit : String) (arr : List Obs) : List Row :=
  arr.filterMap (fun ob =>
    let e := pyOr ob.endDate ob.fy
    if truthy e then
      some { cik := cik, ticker := ticker, concept := concept, unit := unit,
             period_end_date := e, val := ob.val, accn := ob.accn, fy := ob.fy,
             fp := ob.fp, form := ob.form, filed := ob.filed }
    else none)

/-- The per-concept walk over `body.get("units", {})`. -/
def bodyRows (cik ticker concept : String) (body : CBody) : List Row :=
  body.units.flatMap (fun u => obsRows cik ticker concept u.1 u.2)

/-- The per-namespace walk of the emission loop (lines 56–74): non-dict
namespace bodies are skipped, and concepts outside the effective set emit
nothing (`if concept not in concepts: continue`). -/
def nsRows (cik ticker : String) (concepts : List String) (ns : String) (nsv : NsVal) : List Row :=
  match nsv with
  | .dict m => m.flatMap (fun q =>
      let concept := conceptName ns q.1
      if concepts.contains concept then bodyRows cik ticker concept q.2 else [])
  | .nondict => []

/-- `normalize_companyfacts(cik, ticker, facts)`: early empty return when the
`"facts"` mapping is empty or absent, then the tiered concept selection,
then the emission walk. -/
def normalize_companyfacts (cik ticker : String) (facts : FactsDoc) : List Row :=
  let allFacts := facts.facts.getD []
  if allFacts.isEmpty then []
  else
    let concepts := effectiveConcepts allFacts
    allFacts.flatMap (fun p => nsRows cik ticker concepts p.1 p.2)

/-- Python `str.zfill` for the non-negative identifiers padded here:
left-pad with zeros to the given width. -/
def zfill (s : String) (w : Nat) : String :=
  if w ≤ s.length then s else String.mk (List.replicate (w - s.length) '0') ++ s

/-- Python `str.upper`, embedded per character (tickers are ASCII). -/
def strUpper (s : String) : String := String.mk (s.toList.map Char.toUpper)

/-- One entry of the SEC company-tickers directory, with the fields
`get_ticker_cik_map` reads (`"ticker"` and the numeric `"cik_str"`). -/
structure TickerEntry where
  ticker : String
  cik_str : Nat
deriving DecidableEq, Repr

/-- Python dict assignment `d[k] = v` on an insertion-ordered mapping: an
existing key keeps its position and takes the new value, a new key is
appended. -/
def dictInsert (m : List (String × String)) (k v : String) : List (String × String) :=
  if m.any (fun p => p.1 == k) then m.map (fun p => if p.1 = k then (k, v) else p)
  else m ++ [(k, v)]

/-- Python dict lookup `d.get(k)` on the insertion-ordered mapping. -/
def dictGet (m : List (String × String)) (k : String) : Option String :=
  (m.find? (fun p => p.1 == k)).map (fun p => p.2)

/-- `get_ticker_cik_map`: the dict comprehension
`(v["ticker"].upper(), str(v["cik_str"]).zfill(10))` over the directory
entries in iteration order. -/
def get_ticker_cik_map (data : List TickerEntry) : List (String × String) :=
  data.foldl (fun m v => dictInsert m (strUpper v.ticker) (zfill (toString v.cik_str) 10)) []

/-- The `"recent"` filings block, holding the four parallel arrays `main`
indexes; `none` embeds an absent key. -/
structure RecentBlock where
  accessionNumber : Option (List String)
  form : Option (List String)
  filingDate : Option (List String)
  reportDate : Option (List String)
deriving DecidableEq, Repr

/-- The `"filings"` block of a submissions document. -/
structure Filings where
  recent : Option RecentBlock
deriving DecidableEq, Repr

/-- A raw submissions document, with the parts `main` reads. -/
structure SubsDoc where
  companyName : Option String
  filings : Option Filings
deriving DecidableEq, Repr

/-- One flattened Submission Row, in the field order of the dict literal in
`main`. -/
structure SubRow where
  cik : String
  ticker : String
  company_name : String
  accession_no : String
  form : String
  filed : String
  report_period : String
deriving DecidableEq, Repr

/-- `subs.get("filings",{}).get("recent",{})`: both missing keys default to
the empty mapping, i.e. a block with every array absent. -/
def recentBlockOf (subs : SubsDoc) : RecentBlock :=
  match subs.filings with
  | none => { accessionNumber := none, form := none, filingDate := none, reportDate := none }
  | some f =>
      f.recent.getD
        { accessionNumber := none, form := none, filingDate := none, reportDate := none }

/-- Python `rec[key]` on the recent block: KeyError when the key is absent. -/
def keyGet (v : Option (List String)) (key : String) : Except String (List String) :=
  match v with
  | some l => Except.ok l
  | none => Except.error ("KeyError: " ++ key)

/-- Python `l[i]`: IndexError when the index is out of range. -/
def listIdx (l : List String) (i : Nat) : Except String String :=
  match l.get? i with
  | some x => Except.ok x
  | none => Except.error "IndexError: list index out of range"

/-- The submission-flattening loop of `main` (lines 100–110) for one
company: one Submission Row per index `0..len(rec.get("accessionNumber", []))-1`,
indexing the four parallel arrays of the recent block; a Python KeyError or
IndexError propagates as `Except.error`. -/
def flatten_submissions (cik ticker : String) (subs : SubsDoc) : Except String (List SubRow) :=
  let company := subs.companyName.getD ""
  let recBlock := recentBlockOf subs
  let accs := recBlock.accessionNumber.getD []
  (List.range accs.length).mapM (fun i => do
    let accession ← listIdx (← keyGet recBlock.accessionNumber "accessionNumber") i
    let formVal ← listIdx (← keyGet recBlock.form "form") i
    let filedVal ← listIdx (← keyGet recBlock.filingDate "filingDate") i
    let reportVal ← listIdx (← keyGet recBlock.reportDate "reportDate") i
    pure { cik := zfill cik 10, ticker := ticker, company_name := company,
           accession_no := accession, form := formVal, filed := filedVal,
           report_period := reportVal })

/-- Lowercase hex digit of a value below 16 (Python `%04x` formatting). -/
def hexDigit (n : Nat) : Char :=
  if n < 10 then Char.ofNat (48 + n) else Char.ofNat (87 + n)

/-- The four hex digits of a value below 65536, most significant first. -/
def hex4 (n : Nat) : List Char :=
  [hexDigit (n / 4096 % 16), hexDigit (n / 256 % 16), hexDigit (n / 16 % 16), hexDigit (n % 16)]

/-- `json.dumps` escaping of one character (default `ensure_ascii=True`):
printable ASCII other than quote and backslash is literal, the named
escapes cover the usual control characters, everything else becomes
a `\uXXXX` escape, as a surrogate pair above U+FFFF. -/
def escChar (c : Char) : List Char :=
  if c = '"' then ['\\', '"']
  else if c = '\\' then ['\\', '\\']
  else if c = '\x08' then ['\\', 'b']
  else if c = '\x0c' then ['\\', 'f']
  else if c = '\n' then ['\\', 'n']
  else if c = '\r' then ['\\', 'r']
  else if c = '\t' then ['\\', 't']
  else if 32 ≤ c.toNat ∧ c.toNat ≤ 126 then [c]
  else if c.toNat < 65536 then '\\' :: 'u' :: hex4 c.toNat
  else ('\\' :: 'u' :: hex4 (55296 + (c.toNat - 65536) / 1024))
       ++ ('\\' :: 'u' :: hex4 (56320 + (c.toNat - 65536) % 1024))

/-- `json.dumps` escaping of a whole string body. -/
def escString (s : List Char) : List Char := s.flatMap escChar

/-- `json.dumps` of a string value: quoted, escaped. -/
def dumpString (s : String) : List Char := '"' :: escString s.toList ++ ['"']

/-- The decimal digits of a natural number, most significant first
(Python `str(int)` for non-negative values). -/
def natDigits (n : Nat) : List Char :=
  if _h : n < 10 then [Nat.digitChar n]
  else natDigits (n / 10) ++ [Nat.digitChar (n % 10)]
decreasing_by exact Nat.div_lt_self (by omega) (by omega)

/-- Python `str(int)`: decimal digits with a leading minus when negative. -/
def intChars (i : Int) : List Char :=
  if i < 0 then '-' :: natDigits i.natAbs else natDigits i.toNat

/-- `json.dumps` of one scalar row value. -/
def dumpJVal : JVal → List Char
  | .str s => dumpString s
  | .num n => intChars n
  | .null => ['n', 'u', 'l', 'l']

/-- One serialized `"key": value` member of the row object. -/
def dumpField (key : String) (v : List Char) : List Char :=
  '"' :: key.toList ++ '"' :: ':' :: ' ' :: v

/-- `json.dumps` of one Fact Row dict: keys in insertion order, default
separators, braces around the members. -/
def dumpRow (r : Row) : List Char :=
  '\x7b' :: dumpField "cik" (dumpString r.cik)
  ++ ',' :: ' ' :: dumpField "ticker" (dumpString r.ticker)
  ++ ',' :: ' ' :: dumpField "concept" (dumpString r.concept)
  ++ ',' :: ' ' :: dumpField "unit" (dumpString r.unit)
  ++ ',' :: ' ' :: dumpField "period_end_date" (dumpJVal r.period_end_date)
  ++ ',' :: ' ' :: dumpField "val" (dumpJVal r.val)
  ++ ',' :: ' ' :: dumpField "accn" (dumpJVal r.accn)
  ++ ',' :: ' ' :: dumpField "fy" (dumpJVal r.fy)
  ++ ',' :: ' ' :: dumpField "fp" (dumpJVal r.fp)
  ++ ',' :: ' ' :: dumpField "form" (dumpJVal r.form)
  ++ ',' :: ' ' :: dumpField "filed" (dumpJVal r.filed)
  ++ ['\x7d']

/-- `write_ndjson`: writes `json.dumps(r) + "\n"` for each row, in order. -/
def write_ndjson (rows : List Row) : List Char :=
  rows.flatMap (fun r => dumpRow r ++ ['\n'])

/-- Value of one hex digit character, either case (as `json.loads` reads
`\uXXXX` escapes). -/
def parseHexDigit (c : Char) : Option Nat :=
  if 48 ≤ c.toNat ∧ c.toNat ≤ 57 then some (c.toNat - 48)
  else if 97 ≤ c.toNat ∧ c.toNat ≤ 102 then some (c.toNat - 87)
  else if 65 ≤ c.toNat ∧ c.toNat ≤ 70 then some (c.toNat - 55)
  else none

/-- Value of a four-hex-digit escape payload. -/
def parseHex4 (a b c d : Char) : Option Nat := do
  let x ← parseHexDigit a
  let y ← parseHexDigit b
  let z ← parseHexDigit c
  let w ← parseHexDigit d
  pure (4096 * x + 256 * y + 16 * z + w)

/-- Outcome of reading one lexical element of a JSON string body: the
closing quote, one decoded character, or a lexical error. -/
inductive StrStep where
  | done (rest : List Char)
  | push (c : Char) (rest : List Char)
  | fail
deriving DecidableEq, Repr

/-- Reading the low-surrogate escape that must follow a high surrogate
`n`, recombining the pair into one scalar value. -/
def loStep (n : Nat) : List Char → StrStep
  | s1 :: s2 :: e1 :: e2 :: e3 :: e4 :: rest4 =>
    if s1 = '\\' ∧ s2 = 'u' then
      match parseHex4 e1 e2 e3 e4 with
      | none => .fail
      | some m =>
        if 56320 ≤ m ∧ m < 57344 then
          .push (Char.ofNat (65536 + 1024 * (n - 55296) + (m - 56320))) rest4
        else .fail
    else .fail
  | _ => .fail

/-- Reading the four hex digits of a `\uXXXX` escape, continuing into a
surrogate pair when the value is a high surrogate. -/
def uStep : List Char → StrStep
  | a :: b :: c2 :: d :: rest3 =>
    match parseHex4 a b c2 d with
    | none => .fail
    | some n =>
      if n < 55296 ∨ 57343 < n then .push (Char.ofNat n) rest3
      else if n < 56320 then loStep n rest3
      else .fail
  | _ => .fail

/-- Reading the character named by a backslash escape. -/
def escStep (e : Char) (rest2 : List Char) : StrStep :=
  if e = '"' then .push '"' rest2
  else if e = '\\' then .push '\\' rest2
  else if e = '/' then .push '/' rest2
  else if e = 'b' then .push '\x08' rest2
  else if e = 'f' then .push '\x0c' rest2
  else if e = 'n' then .push '\n' rest2
  else if e = 'r' then .push '\r' rest2
  else if e = 't' then .push '\t' rest2
  else if e = 'u' then uStep rest2
  else .fail

/-- Reading one lexical element of a JSON string body, as `json.loads`
does: a closing quote ends the string, a backslash starts an escape, any
other character is literal. -/
def strStep : List Char → StrStep
  | [] => .fail
  | c :: rest =>
    if c = '"' then .done rest
    else if c = '\\' then
      match rest with
      | [] => .fail
      | e :: rest2 => escStep e rest2
    else .push c rest

/-- The string-body reading loop, with an explicit step budget (each step
consumes at least one input character, so a budget beyond the input length
is as good as unbounded). -/
def parseStringBodyF : Nat → List Char → List Char → Option (List Char × List Char)
  | 0, _, _ => none
  | fuel + 1, acc, input =>
    match strStep input with
    | .done rest => some (acc.reverse, rest)
    | .push c rest => parseStringBodyF fuel (c :: acc) rest
    | .fail => none

/-- `json.loads` reading of a string body after the opening quote:
literal characters up to the closing quote, backslash escapes, `\uXXXX`
escapes with surrogate-pair recombination. -/
def parseStringBody (acc input : List Char) : Option (List Char × List Char) :=
  parseStringBodyF (input.length + 1) acc input

/-- Greedy decimal-digit run, accumulator-passing. -/
def parseDigits : Nat → List Char → Nat × List Char
  | acc, [] => (acc, [])
  | acc, c :: rest =>
    if c.isDigit then parseDigits (10 * acc + (c.toNat - 48)) rest else (acc, c :: rest)

/-- `json.loads` reading of one scalar value as it occurs in a row: a
string, `null`, or an integer numeral. -/
def parseJVal : List Char → Option (JVal × List Char)
  | [] => none
  | c :: rest =>
    if c = '"' then (parseStringBody [] rest).map (fun p => (JVal.str (String.mk p.1), p.2))
    else if c = 'n' then
      match rest with
      | 'u' :: 'l' :: 'l' :: rest2 => some (JVal.null, rest2)
      | _ => none
    else if c = '-' then
      match rest with
      | d :: _ =>
        if d.isDigit then
          some ((fun p => (JVal.num (-(p.1 : Int)), p.2)) (parseDigits 0 rest))
        else none
      | [] => none
    else if c.isDigit then
      some ((fun p => (JVal.num ((p.1 : Nat) : Int), p.2)) (parseDigits 0 (c :: rest)))
    else none

/-- Consume an expected literal character sequence. -/
def expectChars : List Char → List Char → Option (List Char)
  | [], input => some input
  | p :: ps, c :: rest => if c = p then expectChars ps rest else none
  | _ :: _, [] => none

/-- Read one `"key": "string"` member. -/
def parseStringField (key : String) (input : List Char) : Option (String × List Char) := do
  let r1 ← expectChars ('"' :: key.toList ++ ['"', ':', ' ', '"']) input
  let p ← parseStringBody [] r1
  pure (String.mk p.1, p.2)

/-- Read one `"key": value` member with a scalar value. -/
def parseJValField (key : String) (input : List Char) : Option (JVal × List Char) := do
  let r1 ← expectChars ('"' :: key.toList ++ ['"', ':', ' ']) input
  parseJVal r1

/-- Read the four leading string members of a serialized row. -/
def parseStrFields (input : List Char) :
    Option ((String × String × String × String) × List Char) := do
  let p1 ← parseStringField "cik" input
  let r1 ← expectChars [',', ' '] p1.2
  let p2 ← parseStringField "ticker" r1
  let r2 ← expectChars [',', ' '] p2.2
  let p3 ← parseStringField "concept" r2
  let r3 ← expectChars [',', ' '] p3.2
  let p4 ← parseStringField "unit" r3
  let r4 ← expectChars [',', ' '] p4.2
  pure ((p1.1, p2.1, p3.1, p4.1), r4)

/-- Read the period-marker, value, accession and fiscal-year members. -/
def parseValFields1 (input : List Char) :
    Option ((JVal × JVal × JVal × JVal) × List Char) := do
  let p5 ← parseJValField "period_end_date" input
  let r5 ← expectChars [',', ' '] p5.2
  let p6 ← parseJValField "val" r5
  let r6 ← expectChars [',', ' '] p6.2
  let p7 ← parseJValField "accn" r6
  let r7 ← expectChars [',', ' '] p7.2
  let p8 ← parseJValField "fy" r7
  let r8 ← expectChars [',', ' '] p8.2
  pure ((p5.1, p6.1, p7.1, p8.1), r8)

/-- Read the trailing members and the closing brace. -/
def parseValFields2 (input : List Char) :
    Option ((JVal × JVal × JVal) × List Char) := do
  let p9 ← parseJValField "fp" input
  let r9 ← expectChars [',', ' '] p9.2
  let p10 ← parseJValField "form" r9
  let r10 ← expectChars [',', ' '] p10.2
  let p11 ← parseJValField "filed" r10
  let r11 ← expectChars ['\x7d'] p11.2
  pure ((p9.1, p10.1, p11.1), r11)

/-- Read one serialized Fact Row object, member by member in the emitted
key order. -/
def parseRowChars (input : List Char) : Option (Row × List Char) := do
  let r0 ← expectChars ['\x7b'] input
  let a ← parseStrFields r0
  let b ← parseValFields1 a.2
  let c ← parseValFields2 b.2
  pure ({ cik := a.1.1, ticker := a.1.2.1, concept := a.1.2.2.1, unit := a.1.2.2.2,
          period_end_date := b.1.1, val := b.1.2.1, accn := b.1.2.2.1, fy := b.1.2.2.2,
          fp := c.1.1, form := c.1.2.1, filed := c.1.2.2 }, c.2)

/-- Parse one NDJSON line as `json.loads` does: the row object must span
the whole line. -/
def parseRowLine (l : List Char) : Option Row :=
  match parseRowChars l with
  | some (r, []) => some r
  | _ => none

/-- Split a character stream into newline-terminated lines, as iterating a
text file line by line does (a trailing terminator opens no empty line). -/
def splitLinesAux : List Char → List Char → List (List Char)
  | acc, [] => if acc.isEmpty then [] else [acc.reverse]
  | acc, c :: rest =>
    if c = '\n' then acc.reverse :: splitLinesAux [] rest
    else splitLinesAux (c :: acc) rest

/-- Line-by-line reading of the written file. -/
def splitLines (cs : List Char) : List (List Char) := splitLinesAux [] cs

/-- A stream that does not start with a decimal digit (a numeral read from
it stops at its front). -/
def headNotDigit : List Char → Bool
  | [] => true
  | c :: _ => !c.isDigit

/-- The companyfacts observation from the repository's unit test
`test_normalize_companyfacts_with_data`. -/
def exampleObs : Obs :=
  { endDate := .str "2023-12-31", val := .num 1000000, accn := .str "123456",
    fy := .num 2023, fp := .str "FY", form := .null, filed := .null }

/-- The namespace mapping of the unit test's fact document. -/
def exampleDoc : List (String × NsVal) :=
  [("us-gaap", .dict [("Revenues", CBody.mk [("USD", [exampleObs])])])]

/-- The single row the unit test expects for `exampleDoc`. -/
def exampleRow : Row :=
  { cik := "0000320193", ticker := "AAPL", concept := "us-gaap:Revenues", unit := "USD",
    period_end_date := .str "2023-12-31", val := .num 1000000, accn := .str "123456",
    fy := .num 2023, fp := .str "FY", form := .null, filed := .null }

/-- A namespace mapping with no preferred concept, exercising the
vocabulary-match fallback tier. -/
def fallbackDoc : List (String × NsVal) :=
  [("custom", .dict [("TotalSalesFigure", CBody.mk []), ("WidgetCount", CBody.mk []),
    ("OperatingIncomeX", CBody.mk [])])]

/-- The ticker directory from the repository's unit test
`test_get_ticker_cik_map`. -/
def exampleDirectory : List TickerEntry :=
  [{ ticker := "AAPL", cik_str := 320193 }, { ticker := "MSFT", cik_str := 789019 }]

/-- A directory with two entries for the same ticker and different ids. -/
def duplicateDirectory : List TickerEntry :=
  [{ ticker := "AAPL", cik_str := 1 }, { ticker := "AAPL", cik_str := 2 }]

/-- A submissions document whose recent-filings block is entirely absent. -/
def noRecentSubs : SubsDoc :=
  { companyName := some "Apple Inc.", filings := some { recent := none } }

/-- Truthiness of Python `a or b` is the disjunction of truthiness. -/
theorem truthy_pyOr (a b : JVal) : truthy (pyOr a b) = (truthy a || truthy b) := by
  by_cases h : truthy a <;> simp [pyOr, h]

/-- Every row of `obsRows` carries the concept it was emitted for. -/
theorem mem_obsRows_concept {cik ticker concept unit : String} {arr : List Obs} {r : Row}
    (h : r ∈ obsRows cik ticker concept unit arr) : r.concept = concept := by
  simp only [obsRows, List.mem_filterMap] at h
  obtain ⟨ob, _, hob⟩ := h
  by_cases ht : truthy (pyOr ob.endDate ob.fy)
  · simp only [ht, if_pos] at hob
    cases hob
    rfl
  · simp [ht] at hob

/-- Every row of `bodyRows` carries the concept it was emitted for. -/
theorem mem_bodyRows_concept {cik ticker concept : String} {body : CBody} {r : Row}
    (h : r ∈ bodyRows cik ticker concept body) : r.concept = concept := by
  simp only [bodyRows, List.mem_flatMap] at h
  obtain ⟨u, _, hr⟩ := h
  exact mem_obsRows_concept hr

/-- Every row of the per-namespace walk has its concept in the effective list. -/
theorem mem_nsRows_concept {cik ticker ns : String} {cs : List String} {nsv : NsVal} {r : Row}
    (h : r ∈ nsRows cik ticker cs ns nsv) : r.concept ∈ cs := by
  cases nsv with
  | nondict => simp [nsRows] at h
  | dict m =>
    simp only [nsRows, List.mem_flatMap] at h
    obtain ⟨q, _, hr⟩ := h
    by_cases hc : cs.contains (conceptName ns q.1)
    · rw [if_pos hc] at hr
      rw [mem_bodyRows_concept hr]
      exact List.mem_of_elem_eq_true hc
    · rw [if_neg hc] at hr
      simp at hr

/-- Every row of the per-namespace walk names a concept present in that
namespace's dict, hence in the available-concept scan of the whole doc. -/
theorem mem_nsRows_available {cik ticker ns : String} {cs : List String} {nsv : NsVal} {r : Row}
    (h : r ∈ nsRows cik ticker cs ns nsv) :
    ∃ m q, nsv = NsVal.dict m ∧ q ∈ m ∧ r.concept = conceptName ns q.1 := by
  cases nsv with
  | nondict => simp [nsRows] at h
  | dict m =>
    simp only [nsRows, List.mem_flatMap] at h
    obtain ⟨q, hq, hr⟩ := h
    by_cases hc : cs.contains (conceptName ns q.1)
    · rw [if_pos hc] at hr
      exact ⟨m, q, rfl, hq, mem_bodyRows_concept hr⟩
    · rw [if_neg hc] at hr
      simp at hr

/-- Every row emitted by the normalizer names a concept found by the
available-concept scan. -/
theorem mem_normalize_concept_available {cik ticker : String} {facts : FactsDoc} {r : Row}
    (h : r ∈ normalize_companyfacts cik ticker facts) :
    r.concept ∈ availableConcepts (facts.facts.getD []) := by
  unfold normalize_companyfacts at h
  by_cases he : (facts.facts.getD []).isEmpty
  · simp [he] at h
  · rw [if_neg he] at h
    obtain ⟨p, hp, hr⟩ := List.mem_flatMap.mp h
    obtain ⟨m, q, hm, hq, hcq⟩ := mem_nsRows_available hr
    simp only [availableConcepts, List.mem_flatMap]
    exact ⟨p, hp, by rw [hm, hcq]; exact List.mem_map_of_mem _ hq⟩

/-- The concept-selection policy depends only on the available-concept scan. -/
theorem effectiveConcepts_congr {d₁ d₂ : List (String × NsVal)}
    (h : availableConcepts d₁ = availableConcepts d₂) :
    effectiveConcepts d₁ = effectiveConcepts d₂ := by
  simp only [effectiveConcepts, h]

/-- Claim C3: for every observation in a unit's sequence the normalizer's
inner loop emits exactly one Fact Row when the observation's period-end
date or, failing that, its fiscal-year is non-empty (truthy), using the
period-end date as the period marker when it is present and the
fiscal-year only otherwise; observations with neither are dropped
silently, with no error. -/
theorem observation_row_emission (cik ticker concept unit : String) (arr : List Obs) :
    obsRows cik ticker concept unit arr =
      (arr.filter (fun ob => truthy ob.endDate || truthy ob.fy)).map (fun ob =>
        { cik := cik, ticker := ticker, concept := concept, unit := unit,
          period_end_date := if truthy ob.endDate then ob.endDate else ob.fy,
          val := ob.val, accn := ob.accn, fy := ob.fy, fp := ob.fp,
          form := ob.form, filed := ob.filed }) := by
  induction arr with
  | nil => rfl
  | cons ob rest ih =>
    simp only [obsRows, List.filterMap_cons, List.filter_cons] at *
    by_cases ht : truthy (pyOr ob.endDate ob.fy)
    · rw [if_pos ht]
      rw [truthy_pyOr] at ht
      simp only [ht, if_pos, List.map_cons]
      rw [ih]
      simp [pyOr]
    · rw [if_neg ht]
      rw [truthy_pyOr] at ht
      simp only [Bool.not_eq_true] at ht
      simp [ht, ih]

/-- Claim C4: a fact document whose namespace mapping is empty or absent
(including the fully empty document) normalizes to the empty row set with
no error. -/
theorem normalize_empty_doc (cik ticker : String) (facts : FactsDoc)
    (h : facts.facts.getD [] = []) :
    normalize_companyfacts cik ticker facts = [] := by
  simp [normalize_companyfacts, h]

/-- Witness for C4 at the empty document `{}`. -/
theorem normalize_empty_doc_witness :
    (FactsDoc.mk none).facts.getD [] = [] ∧
      normalize_companyfacts "0000320193" "AAPL" (FactsDoc.mk none) = [] :=
  ⟨rfl, normalize_empty_doc "0000320193" "AAPL" (FactsDoc.mk none) rfl⟩

/-- Claim C5: every row emitted by the normalizer names a concept that is a
member of the effective concept set computed by the tiered selection
policy. -/
theorem row_concept_in_effective_set (cik ticker : String) (facts : FactsDoc) (r : Row)
    (h : r ∈ normalize_companyfacts cik ticker facts) :
    r.concept ∈ effectiveConcepts (facts.facts.getD []) := by
  unfold normalize_companyfacts at h
  by_cases he : (facts.facts.getD []).isEmpty
  · simp [he] at h
  · rw [if_neg he] at h
    obtain ⟨p, _, hr⟩ := List.mem_flatMap.mp h
    exact mem_nsRows_concept hr

/-- Claim C1: when at least one preferred concept is available, the
effective concept set is exactly the full preferred list, and a preferred
concept absent from the document contributes zero rows, with no error. -/
theorem preferred_concepts_win (cik ticker : String) (facts : FactsDoc)
    (h : ∃ p ∈ preferredConcepts, p ∈ availableConcepts (facts.facts.getD [])) :
    effectiveConcepts (facts.facts.getD []) = preferredConcepts ∧
      ∀ p ∈ preferredConcepts, p ∉ availableConcepts (facts.facts.getD []) →
        ∀ r ∈ normalize_companyfacts cik ticker facts, r.concept ≠ p := by
  obtain ⟨p, hp, hpav⟩ := h
  constructor
  · have hmem : p ∈ preferredConcepts.filter
        (fun c => (availableConcepts (facts.facts.getD [])).contains c) :=
      List.mem_filter.mpr ⟨hp, by simpa using hpav⟩
    have hcount : (preferredConcepts.filter
        (fun c => (availableConcepts (facts.facts.getD [])).contains c)).length ≠ 0 := by
      intro hlen
      rw [List.length_eq_zero] at hlen
      rw [hlen] at hmem
      exact List.not_mem_nil p hmem
    simp only [effectiveConcepts]
    rw [if_neg hcount]
  · intro q _ hqav r hr hrq
    exact hqav (hrq ▸ mem_normalize_concept_available hr)

/-- Claim C2: when zero preferred concepts are available, the effective set
is the first 2 available revenue/sales vocabulary matches plus the first 2
income/earnings vocabulary matches, in document iteration order; if that is
empty it is the first 5 available concepts. -/
theorem fallback_concepts (facts : FactsDoc)
    (h : ∀ p ∈ preferredConcepts, p ∉ availableConcepts (facts.facts.getD [])) :
    effectiveConcepts (facts.facts.getD []) =
      (let available := availableConcepts (facts.facts.getD [])
       let rev := (available.filter (fun c => matchesAnyTerm c ["revenue", "sales"])).take 2
       let inc := (available.filter (fun c => matchesAnyTerm c ["income", "earnings"])).take 2
       if (rev ++ inc).isEmpty then available.take 5 else rev ++ inc) := by
  have hcount : (preferredConcepts.filter
      (fun c => (availableConcepts (facts.facts.getD [])).contains c)) = [] := by
    rw [List.filter_eq_nil_iff]
    intro a ha
    simpa using h a ha
  simp only [effectiveConcepts, hcount, List.length_nil, if_pos]

/-- Claim C10: a namespace whose body is not a mapping is skipped by both
the available-concept scan and the emission walk: it contributes no
concepts, yields no rows, and causes no error. -/
theorem nondict_namespace_skipped (cik ticker ns : String) (pre post : List (String × NsVal)) :
    availableConcepts (pre ++ (ns, NsVal.nondict) :: post) = availableConcepts (pre ++ post) ∧
      normalize_companyfacts cik ticker (FactsDoc.mk (some (pre ++ (ns, NsVal.nondict) :: post))) =
        normalize_companyfacts cik ticker (FactsDoc.mk (some (pre ++ post))) := by
  have hav : availableConcepts (pre ++ (ns, NsVal.nondict) :: post)
      = availableConcepts (pre ++ post) := by
    simp [availableConcepts]
  refine ⟨hav, ?_⟩
  rcases hpp : pre ++ post with _ | ⟨x, xs⟩
  · obtain ⟨rfl, rfl⟩ := List.append_eq_nil.mp hpp
    simp [normalize_companyfacts, nsRows]
  · have hrows : (pre ++ (ns, NsVal.nondict) :: post).flatMap
        (fun p => nsRows cik ticker (effectiveConcepts (pre ++ post)) p.1 p.2)
        = (pre ++ post).flatMap
          (fun p => nsRows cik ticker (effectiveConcepts (pre ++ post)) p.1 p.2) := by
      simp [nsRows]
    simp only [normalize_companyfacts, Option.getD_some]
    rw [if_neg (by simp), if_neg (by simp [hpp]), effectiveConcepts_congr hav, hrows, hpp]

/-- Witness for C1 at the unit test's fact document. -/
theorem preferred_concepts_win_witness :
    effectiveConcepts exampleDoc = preferredConcepts :=
  (preferred_concepts_win "0000320193" "AAPL" (FactsDoc.mk (some exampleDoc))
    ⟨"us-gaap:Revenues", by decide, by decide⟩).1

/-- Witness for C2 at a document with only fallback-tier concepts. -/
theorem fallback_concepts_witness :
    effectiveConcepts fallbackDoc = ["custom:TotalSalesFigure", "custom:OperatingIncomeX"] :=
  (fallback_concepts (FactsDoc.mk (some fallbackDoc)) (by decide)).trans (by rfl)

/-- Witness for C5 at the unit test's fact document and its emitted row. -/
theorem row_concept_in_effective_set_witness :
    exampleRow.concept ∈ effectiveConcepts exampleDoc :=
  row_concept_in_effective_set "0000320193" "AAPL" (FactsDoc.mk (some exampleDoc))
    exampleRow (by decide)

/-- The last element of a nonempty list exists and is a member. -/
theorem getLast?_mem_of_ne_nil {α : Type} {l : List α} (h : l ≠ []) :
    ∃ a, l.getLast? = some a ∧ a ∈ l := by
  induction l with
  | nil => exact absurd rfl h
  | cons x xs ih =>
    rcases xs with _ | ⟨y, ys⟩
    · exact ⟨x, rfl, List.mem_singleton.mpr rfl⟩
    · obtain ⟨a, ha, hm⟩ := ih (by simp)
      exact ⟨a, by rw [List.getLast?_cons_cons]; exact ha, List.mem_cons_of_mem _ hm⟩

/-- Lookup after a Python dict assignment: the assigned key reads the new
value, any other key reads as before. -/
theorem dictGet_dictInsert (m : List (String × String)) (k v t : String) :
    dictGet (dictInsert m k v) t = if t = k then some v else dictGet m t := by
  unfold dictInsert dictGet
  by_cases hin : m.any (fun p => p.1 == k)
  · rw [if_pos hin, List.find?_map]
    have hpred : ((fun p => p.1 == t) ∘ fun p : String × String =>
        if p.1 = k then (k, v) else p) = fun p : String × String => p.1 == t := by
      funext q
      by_cases hq : q.1 = k <;> simp [hq]
    rw [hpred]
    by_cases ht : t = k
    · subst ht
      rw [if_pos rfl]
      obtain ⟨q, hq, hqt⟩ := List.any_eq_true.mp hin
      have hsome : (m.find? (fun p => p.1 == t)).isSome :=
        List.find?_isSome.mpr ⟨q, hq, hqt⟩
      obtain ⟨q0, hfind⟩ := Option.isSome_iff_exists.mp hsome
      have hq0 : q0.1 = t := by simpa using List.find?_some hfind
      rw [hfind]
      simp [hq0]
    · rw [if_neg ht]
      rcases hfind : m.find? (fun p => p.1 == t) with _ | q0
      · rw [hfind]
        rfl
      · have hq0 : q0.1 = t := by simpa using List.find?_some hfind
        have hq0k : ¬q0.1 = k := by rw [hq0]; exact ht
        rw [hfind]
        simp [hq0k]
  · rw [if_neg hin, List.find?_append]
    by_cases ht : t = k
    · subst ht
      have hnone : m.find? (fun p => p.1 == t) = none := by
        rw [List.find?_eq_none]
        intro q hq hqt
        exact hin (List.any_eq_true.mpr ⟨q, hq, hqt⟩)
      rw [hnone, if_pos rfl, Option.none_or]
      simp [List.find?]
    · have hk : (k == t) = false := by
        simpa using fun h => ht h.symm
      rw [if_neg ht]
      have hone : List.find? (fun p => p.1 == t) [(k, v)] = none := by
        simp [List.find?, hk]
      rw [hone, Option.or_none]

/-- Looking up a ticker in the built map finds the padded identifier of the
last directory entry with that (uppercased) ticker. -/
theorem dictGet_foldl (data : List TickerEntry) (t : String) :
    ∀ m, dictGet (data.foldl
        (fun m v => dictInsert m (strUpper v.ticker) (zfill (toString v.cik_str) 10)) m) t =
      (match (data.filter (fun v => strUpper v.ticker == t)).getLast? with
       | some v => some (zfill (toString v.cik_str) 10)
       | none => dictGet m t) := by
  induction data with
  | nil => intro m; rfl
  | cons v rest ih =>
    intro m
    rw [List.foldl_cons, ih, List.filter_cons]
    by_cases hv : strUpper v.ticker == t
    · rw [if_pos hv]
      rcases hfl : rest.filter (fun v => strUpper v.ticker == t) with _ | ⟨w, ws⟩
      · rw [hfl, dictGet_dictInsert, if_pos (eq_of_beq hv).symm]
        rfl
      · rw [hfl, List.getLast?_cons_cons]
        obtain ⟨a, ha, _⟩ := getLast?_mem_of_ne_nil (List.cons_ne_nil w ws)
        rw [ha]
    · rw [if_neg hv]
      rcases hfl : rest.filter (fun v => strUpper v.ticker == t) with _ | ⟨w, ws⟩
      · rw [hfl, dictGet_dictInsert, if_neg (fun h => hv (by simp [h]))]
      · rw [hfl]
        obtain ⟨a, ha, _⟩ := getLast?_mem_of_ne_nil (List.cons_ne_nil w ws)
        rw [ha]

/-- The built map, characterized: a ticker reads the padded id of the last
matching entry, and reads nothing when no entry matches. -/
theorem dictGet_ticker_map (data : List TickerEntry) (t : String) :
    dictGet (get_ticker_cik_map data) t =
      ((data.filter (fun v => strUpper v.ticker == t)).getLast?).map
        (fun v => zfill (toString v.cik_str) 10) := by
  rw [get_ticker_cik_map, dictGet_foldl data t []]
  rcases hl : (data.filter (fun v => strUpper v.ticker == t)).getLast? with _ | v <;>
    rw [hl] <;> rfl

/-- Counterexample to claim C7 as stated: with two entries for the same
ticker, the resolver returns the identifier of the second (last) entry, not
the first. -/
theorem duplicate_ticker_first_match_fails :
    dictGet (get_ticker_cik_map duplicateDirectory) "AAPL" = some "0000000002" ∧
      ("0000000002" : String) ≠ "0000000001" := by
  constructor
  · rfl
  · decide

/-- Claim C7 as amended: with duplicate tickers in the source table, the
resolver maps the ticker to the identifier of the LAST matching entry
(Python dict comprehensions overwrite on duplicate keys). -/
theorem last_match_wins (data : List TickerEntry) (t : String) (e : TickerEntry)
    (h : (data.filter (fun v => strUpper v.ticker == t)).getLast? = some e) :
    dictGet (get_ticker_cik_map data) t = some (zfill (toString e.cik_str) 10) := by
  rw [dictGet_ticker_map, h]
  rfl

/-- Witness for C7 at the duplicate directory. -/
theorem last_match_wins_witness :
    dictGet (get_ticker_cik_map duplicateDirectory) "AAPL" = some "0000000002" :=
  (last_match_wins duplicateDirectory "AAPL" { ticker := "AAPL", cik_str := 2 }
    (by decide)).trans (by rfl)

/-- Claim C8: every ticker present in the source table maps to the
zero-padded ten-character form of a matching entry's numeric identifier;
a ticker absent from the table is omitted from the result entirely, with
no error. -/
theorem ticker_resolution (data : List TickerEntry) (t : String) :
    ((∃ v ∈ data, strUpper v.ticker = t) →
      ∃ v ∈ data, strUpper v.ticker = t ∧
        dictGet (get_ticker_cik_map data) t = some (zfill (toString v.cik_str) 10)) ∧
      ((¬∃ v ∈ data, strUpper v.ticker = t) →
        dictGet (get_ticker_cik_map data) t = none) := by
  constructor
  · intro hex
    have hne : data.filter (fun v => strUpper v.ticker == t) ≠ [] := by
      obtain ⟨v, hv, hvt⟩ := hex
      intro hnil
      have hm : v ∈ data.filter (fun v => strUpper v.ticker == t) :=
        List.mem_filter.mpr ⟨hv, by simp [hvt]⟩
      rw [hnil] at hm
      exact List.not_mem_nil v hm
    obtain ⟨e, he, hmem⟩ := getLast?_mem_of_ne_nil hne
    obtain ⟨hed, het⟩ := List.mem_filter.mp hmem
    refine ⟨e, hed, by simpa using het, ?_⟩
    rw [dictGet_ticker_map, he]
    rfl
  · intro hnex
    have hfl : data.filter (fun v => strUpper v.ticker == t) = [] := by
      rw [List.filter_eq_nil_iff]
      intro v hv hvt
      exact hnex ⟨v, hv, by simpa using hvt⟩
    rw [dictGet_ticker_map, hfl]
    rfl

/-- Witness for C8 at the unit test's directory: raw id 789019 reads back
as "0000789019", and an absent ticker reads back as nothing. -/
theorem ticker_resolution_witness :
    (∃ v ∈ exampleDirectory, strUpper v.ticker = "MSFT" ∧
        dictGet (get_ticker_cik_map exampleDirectory) "MSFT" =
          some (zfill (toString v.cik_str) 10)) ∧
      dictGet (get_ticker_cik_map exampleDirectory) "GOOG" = none ∧
      dictGet (get_ticker_cik_map exampleDirectory) "MSFT" = some "0000789019" :=
  ⟨(ticker_resolution exampleDirectory "MSFT").1
      ⟨{ ticker := "MSFT", cik_str := 789019 }, by decide, by decide⟩,
    (ticker_resolution exampleDirectory "GOOG").2 (by decide), by rfl⟩

/-- Counterexample to claim C6 as stated: for a submissions document whose
recent-filings block is entirely absent, the flattening step returns zero
rows successfully instead of propagating an error. -/
theorem missing_recent_block_no_error :
    flatten_submissions "0000320193" "AAPL" noRecentSubs = Except.ok [] := by
  rfl

/-- Claim C6 as amended: when the recent-filings block is entirely absent
(so no accession-number array is reachable), the submission flattening step
silently produces zero submission rows and raises no error — it does not
fail loudly. -/
theorem missing_recent_block_silent (cik ticker : String) (subs : SubsDoc)
    (h : (recentBlockOf subs).accessionNumber = none) :
    flatten_submissions cik ticker subs = Except.ok [] := by
  simp only [flatten_submissions]
  rw [h]
  rfl

/-- Witness for the amended C6 at a document with `filings` present but
`recent` absent. -/
theorem missing_recent_block_silent_witness :
    flatten_submissions "0000789019" "MSFT"
      { companyName := none, filings := some { recent := none } } = Except.ok [] :=
  missing_recent_block_silent "0000789019" "MSFT"
    { companyName := none, filings := some { recent := none } } rfl

/-- Reading back an emitted hex digit recovers its value. -/
theorem parseHexDigit_hexDigit (n : Nat) (h : n < 16) :
    parseHexDigit (hexDigit n) = some n := by
  interval_cases n <;> rfl

/-- Reading back the four emitted hex digits of a value below 65536
recovers the value. -/
theorem parseHex4_hex4 (n : Nat) (h : n < 65536) :
    parseHex4 (hexDigit (n / 4096 % 16)) (hexDigit (n / 256 % 16))
      (hexDigit (n / 16 % 16)) (hexDigit (n % 16)) = some n := by
  simp only [parseHex4, parseHexDigit_hexDigit _ (show n / 4096 % 16 < 16 by omega),
    parseHexDigit_hexDigit _ (show n / 256 % 16 < 16 by omega),
    parseHexDigit_hexDigit _ (show n / 16 % 16 < 16 by omega),
    parseHexDigit_hexDigit _ (show n % 16 < 16 by omega),
    Option.bind_eq_bind, Option.some_bind]
  congr 1
  omega

/-- Every character is a Unicode scalar value: below the surrogate range or
above it and below 1114112. -/
theorem char_scalar (c : Char) : c.toNat < 55296 ∨ (57343 < c.toNat ∧ c.toNat < 1114112) :=
  c.valid

/-- The four-hex-digit step, unfolded on a stream of at least four
characters. -/
theorem uStep_cons (a b c2 d : Char) (rest : List Char) :
    uStep (a :: b :: c2 :: d :: rest) =
      (match parseHex4 a b c2 d with
       | none => StrStep.fail
       | some n =>
         if n < 55296 ∨ 57343 < n then StrStep.push (Char.ofNat n) rest
         else if n < 56320 then loStep n rest
         else StrStep.fail) := by
  simp only [uStep]

/-- The low-surrogate step, unfolded on a stream of at least six
characters. -/
theorem loStep_cons (n : Nat) (s1 s2 e1 e2 e3 e4 : Char) (rest : List Char) :
    loStep n (s1 :: s2 :: e1 :: e2 :: e3 :: e4 :: rest) =
      (if s1 = '\\' ∧ s2 = 'u' then
        match parseHex4 e1 e2 e3 e4 with
        | none => StrStep.fail
        | some m =>
          if 56320 ≤ m ∧ m < 57344 then
            StrStep.push (Char.ofNat (65536 + 1024 * (n - 55296) + (m - 56320))) rest
          else StrStep.fail
      else StrStep.fail) := by
  simp only [loStep]

/-- Reading back a `\uXXXX` payload of a scalar value outside the
surrogate range yields that character. -/
theorem uStep_hex (n : Nat) (hn : n < 65536) (hval : n < 55296 ∨ 57343 < n)
    (tail : List Char) :
    uStep (hex4 n ++ tail) = StrStep.push (Char.ofNat n) tail := by
  simp only [hex4, List.cons_append, List.nil_append]
  rw [uStep_cons, parseHex4_hex4 n hn]
  dsimp only
  rw [if_pos hval]

/-- Reading back an emitted surrogate pair recombines it into the original
scalar value above U+FFFF. -/
theorem uStep_surrogate (t : Nat) (h1 : 65536 ≤ t) (h2 : t < 1114112) (tail : List Char) :
    uStep (hex4 (55296 + (t - 65536) / 1024)
        ++ '\\' :: 'u' :: (hex4 (56320 + (t - 65536) % 1024) ++ tail)) =
      StrStep.push (Char.ofNat t) tail := by
  have hhi : 55296 + (t - 65536) / 1024 < 65536 := by omega
  have hlo : 56320 + (t - 65536) % 1024 < 65536 := by omega
  have hv1 : ¬(55296 + (t - 65536) / 1024 < 55296 ∨ 57343 < 55296 + (t - 65536) / 1024) := by
    omega
  have hv2 : 55296 + (t - 65536) / 1024 < 56320 := by omega
  have hv3 : 56320 ≤ 56320 + (t - 65536) % 1024 ∧ 56320 + (t - 65536) % 1024 < 57344 := by
    omega
  have harith : 65536 + 1024 * (55296 + (t - 65536) / 1024 - 55296)
      + (56320 + (t - 65536) % 1024 - 56320) = t := by
    omega
  simp only [hex4, List.cons_append, List.nil_append, List.append_assoc]
  rw [uStep_cons, parseHex4_hex4 _ hhi]
  dsimp only
  rw [if_neg hv1, if_pos hv2]
  rw [loStep_cons, parseHex4_hex4 _ hlo]
  dsimp only
  rw [if_pos ⟨rfl, rfl⟩, if_pos hv3, harith]

/-- Reading back the escape of any character yields exactly that character
and leaves the rest of the stream intact. -/
theorem strStep_escChar (c : Char) (tail : List Char) :
    strStep (escChar c ++ tail) = StrStep.push c tail := by
  by_cases h1 : c = '"'
  · subst h1; simp [escChar, strStep, escStep]
  by_cases h2 : c = '\\'
  · subst h2; simp [escChar, strStep, escStep]
  by_cases h3 : c = '\x08'
  · subst h3; simp [escChar, strStep, escStep]
  by_cases h4 : c = '\x0c'
  · subst h4; simp [escChar, strStep, escStep]
  by_cases h5 : c = '\n'
  · subst h5; simp [escChar, strStep, escStep]
  by_cases h6 : c = '\r'
  · subst h6; simp [escChar, strStep, escStep]
  by_cases h7 : c = '\t'
  · subst h7; simp [escChar, strStep, escStep]
  by_cases h8 : 32 ≤ c.toNat ∧ c.toNat ≤ 126
  · have hesc : escChar c = [c] := by
      simp only [escChar, if_neg h1, if_neg h2, if_neg h3, if_neg h4, if_neg h5, if_neg h6,
        if_neg h7, if_pos h8]
    rw [hesc]
    simp only [List.cons_append, List.nil_append, strStep]
    rw [if_neg h1, if_neg h2]
  by_cases h9 : c.toNat < 65536
  · have hesc : escChar c = '\\' :: 'u' :: hex4 c.toNat := by
      simp only [escChar, if_neg h1, if_neg h2, if_neg h3, if_neg h4, if_neg h5, if_neg h6,
        if_neg h7, if_neg h8, if_pos h9]
    have hval : c.toNat < 55296 ∨ 57343 < c.toNat := by
      rcases char_scalar c with h | h
      · exact Or.inl h
      · exact Or.inr h.1
    rw [hesc]
    simp only [List.cons_append, strStep, escStep]
    simp [uStep_hex c.toNat h9 hval tail, Char.ofNat_toNat]
  · have hesc : escChar c = ('\\' :: 'u' :: hex4 (55296 + (c.toNat - 65536) / 1024))
        ++ ('\\' :: 'u' :: hex4 (56320 + (c.toNat - 65536) % 1024)) := by
      simp only [escChar, if_neg h1, if_neg h2, if_neg h3, if_neg h4, if_neg h5, if_neg h6,
        if_neg h7, if_neg h8, if_neg h9]
    have hval : c.toNat < 1114112 := by
      rcases char_scalar c with h | h
      · omega
      · exact h.2
    rw [hesc]
    simp only [List.cons_append, List.append_assoc, strStep, escStep]
    simp [uStep_surrogate c.toNat (by omega) hval tail, Char.ofNat_toNat]

/-- Each escape produces at least one character. -/
theorem escChar_length_pos (c : Char) : 0 < (escChar c).length := by
  unfold escChar
  split_ifs <;> simp [hex4]

/-- Escaping a string cannot shorten it. -/
theorem length_le_escString (s : List Char) : s.length ≤ (escString s).length := by
  induction s with
  | nil => simp [escString]
  | cons c cs ih =>
    have hc := escChar_length_pos c
    simp only [escString, List.flatMap_cons, List.length_append, List.length_cons]
    simp only [escString] at ih
    omega

/-- The string-body loop, with enough budget, reads an escaped string back
to the accumulated original characters and stops at the closing quote. -/
theorem parseStringBodyF_escString (s : List Char) :
    ∀ fuel acc rest, s.length < fuel →
      parseStringBodyF fuel acc (escString s ++ '"' :: rest) =
        some (acc.reverse ++ s, rest) := by
  induction s with
  | nil =>
    intro fuel acc rest hf
    match fuel, hf with
    | fuel + 1, _ =>
      simp [escString, parseStringBodyF, strStep]
  | cons c cs ih =>
    intro fuel acc rest hf
    match fuel, hf with
    | fuel + 1, hf =>
      have hstep := strStep_escChar c (escString cs ++ '"' :: rest)
      simp only [escString, List.flatMap_cons, List.append_assoc]
      simp only [parseStringBodyF]
      rw [show escChar c ++ ((cs.flatMap escChar) ++ '"' :: rest)
          = escChar c ++ (escString cs ++ '"' :: rest) from rfl, hstep]
      show parseStringBodyF fuel (c :: acc) (escString cs ++ '"' :: rest)
          = some (acc.reverse ++ c :: cs, rest)
      rw [ih fuel (c :: acc) rest (by simpa using Nat.lt_of_succ_lt_succ hf)]
      simp

/-- Reading back an escaped string body recovers the original characters
and the stream after the closing quote. -/
theorem parseStringBody_escString (s : List Char) (acc rest : List Char) :
    parseStringBody acc (escString s ++ '"' :: rest) = some (acc.reverse ++ s, rest) := by
  unfold parseStringBody
  apply parseStringBodyF_escString
  have := length_le_escString s
  simp only [List.length_append, List.length_cons]
  omega

/-- Decimal digit characters are digits. -/
theorem digitChar_isDigit (n : Nat) (h : n < 10) : (Nat.digitChar n).isDigit = true := by
  interval_cases n <;> decide

/-- The code point of a decimal digit character. -/
theorem digitChar_toNat (n : Nat) (h : n < 10) : (Nat.digitChar n).toNat = 48 + n := by
  interval_cases n <;> decide

/-- Every character of an emitted numeral is a digit. -/
theorem natDigits_isDigit (n : Nat) : ∀ c ∈ natDigits n, c.isDigit = true := by
  induction n using Nat.strong_induction_on with
  | _ n ih =>
    by_cases h : n < 10
    · rw [natDigits, dif_pos h]
      intro c hc
      rw [List.mem_singleton.mp hc]
      exact digitChar_isDigit n h
    · rw [natDigits, dif_neg h]
      intro c hc
      rcases List.mem_append.mp hc with hc | hc
      · exact ih (n / 10) (Nat.div_lt_self (by omega) (by omega)) c hc
      · rw [List.mem_singleton.mp hc]
        exact digitChar_isDigit (n % 10) (by omega)

/-- An emitted numeral has at least one digit. -/
theorem natDigits_ne_nil (n : Nat) : natDigits n ≠ [] := by
  rw [natDigits]
  by_cases h : n < 10 <;> simp [h]

/-- Folding the numeral-reading accumulator over an emitted numeral. -/
theorem natDigits_foldl (n : Nat) :
    ∀ acc, (natDigits n).foldl (fun a c => 10 * a + (c.toNat - 48)) acc
      = acc * 10 ^ (natDigits n).length + n := by
  induction n using Nat.strong_induction_on with
  | _ n ih =>
    intro acc
    by_cases h : n < 10
    · rw [natDigits, dif_pos h]
      simp [List.foldl, digitChar_toNat n h]
      omega
    · rw [natDigits, dif_neg h]
      rw [List.foldl_append, ih (n / 10) (Nat.div_lt_self (by omega) (by omega)) acc]
      have hmod := Nat.div_add_mod n 10
      simp only [List.foldl_cons, List.foldl_nil, List.length_append, List.length_cons,
        List.length_nil, digitChar_toNat (n % 10) (by omega : n % 10 < 10)]
      rw [pow_succ]
      ring_nf
      omega

/-- Reading a run of digits consumes exactly that run, folding its value. -/
theorem parseDigits_run (ds : List Char) (hds : ∀ c ∈ ds, c.isDigit = true) :
    ∀ acc rest, parseDigits acc (ds ++ rest)
      = parseDigits (ds.foldl (fun a c => 10 * a + (c.toNat - 48)) acc) rest := by
  induction ds with
  | nil => intro acc rest; rfl
  | cons c cs ih =>
    intro acc rest
    have hc := hds c (List.mem_cons_self c cs)
    simp only [List.cons_append, parseDigits, hc, if_true, List.foldl_cons]
    exact ih (fun x hx => hds x (List.mem_cons_of_mem c hx)) _ rest

/-- Reading digits stops at a non-digit. -/
theorem parseDigits_stop (acc : Nat) (rest : List Char) (h : headNotDigit rest = true) :
    parseDigits acc rest = (acc, rest) := by
  cases rest with
  | nil => rfl
  | cons c cs =>
    simp only [headNotDigit, Bool.not_eq_true'] at h
    simp [parseDigits, h]

/-- Reading back an emitted numeral recovers the value and stops at the
first non-digit. -/
theorem parseDigits_natDigits (n : Nat) (rest : List Char) (h : headNotDigit rest = true) :
    parseDigits 0 (natDigits n ++ rest) = (n, rest) := by
  rw [parseDigits_run _ (natDigits_isDigit n), natDigits_foldl n 0,
    parseDigits_stop _ _ h]
  simp

/-- A digit character is not a quote, an `n`, or a minus sign. -/
theorem digit_ne (c : Char) (hc : c.isDigit = true) : ¬c = '"' ∧ ¬c = 'n' ∧ ¬c = '-' := by
  refine ⟨?_, ?_, ?_⟩ <;> intro he <;> rw [he] at hc <;> exact absurd hc (by decide)

/-- Reading back an emitted scalar value recovers it, provided the stream
after it does not begin with a digit. -/
theorem parseJVal_dumpJVal (v : JVal) (rest : List Char) (h : headNotDigit rest = true) :
    parseJVal (dumpJVal v ++ rest) = some (v, rest) := by
  cases v with
  | str s =>
    have hshape : dumpJVal (JVal.str s) ++ rest = '"' :: (escString s.toList ++ '"' :: rest) := by
      simp [dumpJVal, dumpString]
    rw [hshape]
    simp only [parseJVal]
    rw [if_pos trivial, parseStringBody_escString]
    simp
  | null =>
    have hshape : dumpJVal JVal.null ++ rest = 'n' :: 'u' :: 'l' :: 'l' :: rest := by
      simp [dumpJVal]
    rw [hshape]
    simp [parseJVal]
  | num i =>
    by_cases hneg : i < 0
    · obtain ⟨d, ds, hd⟩ := List.exists_cons_of_ne_nil (natDigits_ne_nil i.natAbs)
      have hdig : d.isDigit = true :=
        natDigits_isDigit i.natAbs d (by rw [hd]; exact List.mem_cons_self d ds)
      have hshape : dumpJVal (JVal.num i) ++ rest = '-' :: (natDigits i.natAbs ++ rest) := by
        simp [dumpJVal, intChars, hneg]
      rw [hshape]
      simp only [parseJVal]
      rw [if_pos trivial]
      rw [hd, List.cons_append]
      dsimp only
      rw [if_pos hdig, ← List.cons_append, ← hd, parseDigits_natDigits _ _ h]
      have hv : (-(i.natAbs : Int)) = i := by omega
      rw [hv]
      simp
    · obtain ⟨d, ds, hd⟩ := List.exists_cons_of_ne_nil (natDigits_ne_nil i.toNat)
      have hdig : d.isDigit = true :=
        natDigits_isDigit i.toNat d (by rw [hd]; exact List.mem_cons_self d ds)
      obtain ⟨hne1, hne2, hne3⟩ := digit_ne d hdig
      have hshape : dumpJVal (JVal.num i) ++ rest = (natDigits i.toNat) ++ rest := by
        simp [dumpJVal, intChars, hneg]
      rw [hshape, hd, List.cons_append]
      simp only [parseJVal]
      rw [if_neg hne1, if_neg hne2, if_neg hne3, if_pos hdig]
      rw [← List.cons_append, ← hd, parseDigits_natDigits _ _ h]
      have hv : ((i.toNat : Nat) : Int) = i := Int.toNat_of_nonneg (by omega)
      simp [hv]

/-- Consuming an expected literal prefix succeeds and leaves the rest. -/
theorem expectChars_append (pat rest : List Char) :
    expectChars pat (pat ++ rest) = some rest := by
  induction pat with
  | nil => rfl
  | cons p ps ih =>
    simp only [List.cons_append, expectChars, if_pos rfl]
    exact ih

/-- Reading back an emitted string member recovers the string. -/
theorem parseStringField_dump (key s : String) (tail : List Char) :
    parseStringField key (dumpField key (dumpString s) ++ tail) = some (s, tail) := by
  have hshape : dumpField key (dumpString s) ++ tail
      = ('"' :: key.toList ++ ['"', ':', ' ', '"']) ++ (escString s.toList ++ '"' :: tail) := by
    simp [dumpField, dumpString]
  rw [hshape]
  simp only [parseStringField, Option.bind_eq_bind]
  rw [expectChars_append]
  simp only [Option.some_bind]
  rw [parseStringBody_escString]
  simp

/-- Reading back an emitted scalar member recovers the value, provided the
stream after it does not begin with a digit. -/
theorem parseJValField_dump (key : String) (v : JVal) (tail : List Char)
    (h : headNotDigit tail = true) :
    parseJValField key (dumpField key (dumpJVal v) ++ tail) = some (v, tail) := by
  have hshape : dumpField key (dumpJVal v) ++ tail
      = ('"' :: key.toList ++ ['"', ':', ' ']) ++ (dumpJVal v ++ tail) := by
    simp [dumpField]
  rw [hshape]
  simp only [parseJValField, Option.bind_eq_bind]
  rw [expectChars_append]
  simp only [Option.some_bind]
  exact parseJVal_dumpJVal v tail h

/-- Consuming the member separator. -/
theorem expectChars_sep (x : List Char) :
    expectChars [',', ' '] (',' :: ' ' :: x) = some x := rfl

/-- Consuming the opening brace. -/
theorem expectChars_open (x : List Char) :
    expectChars ['\x7b'] ('\x7b' :: x) = some x := rfl

/-- Consuming the closing brace. -/
theorem expectChars_close (x : List Char) :
    expectChars ['\x7d'] ('\x7d' :: x) = some x := rfl

/-- A member separator does not begin with a digit. -/
theorem headNotDigit_sep (x : List Char) : headNotDigit (',' :: x) = true := rfl

/-- A closing brace does not begin with a digit. -/
theorem headNotDigit_close (x : List Char) : headNotDigit ('\x7d' :: x) = true := rfl

/-- Reading back the four emitted string members. -/
theorem parseStrFields_dump (c1 c2 c3 c4 : String) (tail : List Char) :
    parseStrFields (dumpField "cik" (dumpString c1) ++ ',' :: ' ' ::
        (dumpField "ticker" (dumpString c2) ++ ',' :: ' ' ::
        (dumpField "concept" (dumpString c3) ++ ',' :: ' ' ::
        (dumpField "unit" (dumpString c4) ++ ',' :: ' ' :: tail)))) =
      some ((c1, c2, c3, c4), tail) := by
  simp only [parseStrFields, Option.bind_eq_bind]
  rw [parseStringField_dump]
  simp only [Option.some_bind]
  rw [expectChars_sep]
  simp only [Option.some_bind]
  rw [parseStringField_dump]
  simp only [Option.some_bind]
  rw [expectChars_sep]
  simp only [Option.some_bind]
  rw [parseStringField_dump]
  simp only [Option.some_bind]
  rw [expectChars_sep]
  simp only [Option.some_bind]
  rw [parseStringField_dump]
  simp only [Option.some_bind]
  rw [expectChars_sep]
  rfl

/-- Reading back the period-marker, value, accession and fiscal-year
members. -/
theorem parseValFields1_dump (v1 v2 v3 v4 : JVal) (tail : List Char) :
    parseValFields1 (dumpField "period_end_date" (dumpJVal v1) ++ ',' :: ' ' ::
        (dumpField "val" (dumpJVal v2) ++ ',' :: ' ' ::
        (dumpField "accn" (dumpJVal v3) ++ ',' :: ' ' ::
        (dumpField "fy" (dumpJVal v4) ++ ',' :: ' ' :: tail)))) =
      some ((v1, v2, v3, v4), tail) := by
  simp only [parseValFields1, Option.bind_eq_bind]
  rw [parseJValField_dump _ _ _ (headNotDigit_sep _)]
  simp only [Option.some_bind]
  rw [expectChars_sep]
  simp only [Option.some_bind]
  rw [parseJValField_dump _ _ _ (headNotDigit_sep _)]
  simp only [Option.some_bind]
  rw [expectChars_sep]
  simp only [Option.some_bind]
  rw [parseJValField_dump _ _ _ (headNotDigit_sep _)]
  simp only [Option.some_bind]
  rw [expectChars_sep]
  simp only [Option.some_bind]
  rw [parseJValField_dump _ _ _ (headNotDigit_sep _)]
  simp only [Option.some_bind]
  rw [expectChars_sep]
  rfl

/-- Reading back the trailing members and the closing brace. -/
theorem parseValFields2_dump (v1 v2 v3 : JVal) (tail : List Char) :
    parseValFields2 (dumpField "fp" (dumpJVal v1) ++ ',' :: ' ' ::
        (dumpField "form" (dumpJVal v2) ++ ',' :: ' ' ::
        (dumpField "filed" (dumpJVal v3) ++ '\x7d' :: tail))) =
      some ((v1, v2, v3), tail) := by
  simp only [parseValFields2, Option.bind_eq_bind]
  rw [parseJValField_dump _ _ _ (headNotDigit_sep _)]
  simp only [Option.some_bind]
  rw [expectChars_sep]
  simp only [Option.some_bind]
  rw [parseJValField_dump _ _ _ (headNotDigit_sep _)]
  simp only [Option.some_bind]
  rw [expectChars_sep]
  simp only [Option.some_bind]
  rw [parseJValField_dump _ _ _ (headNotDigit_close _)]
  simp only [Option.some_bind]
  rw [expectChars_close]
  rfl

/-- Reading back an emitted Fact Row object recovers the row, leaving the
rest of the stream. -/
theorem parseRowChars_dumpRow (r : Row) (tail : List Char) :
    parseRowChars (dumpRow r ++ tail) = some (r, tail) := by
  have hshape : dumpRow r ++ tail
      = '\x7b' :: (dumpField "cik" (dumpString r.cik) ++ ',' :: ' ' ::
        (dumpField "ticker" (dumpString r.ticker) ++ ',' :: ' ' ::
        (dumpField "concept" (dumpString r.concept) ++ ',' :: ' ' ::
        (dumpField "unit" (dumpString r.unit) ++ ',' :: ' ' ::
        (dumpField "period_end_date" (dumpJVal r.period_end_date) ++ ',' :: ' ' ::
        (dumpField "val" (dumpJVal r.val) ++ ',' :: ' ' ::
        (dumpField "accn" (dumpJVal r.accn) ++ ',' :: ' ' ::
        (dumpField "fy" (dumpJVal r.fy) ++ ',' :: ' ' ::
        (dumpField "fp" (dumpJVal r.fp) ++ ',' :: ' ' ::
        (dumpField "form" (dumpJVal r.form) ++ ',' :: ' ' ::
        (dumpField "filed" (dumpJVal r.filed) ++ '\x7d' :: tail))))))))))) := by
    simp [dumpRow, List.cons_append, List.append_assoc]
  rw [hshape]
  simp only [parseRowChars, Option.bind_eq_bind]
  rw [expectChars_open]
  simp only [Option.some_bind]
  rw [parseStrFields_dump]
  simp only [Option.some_bind]
  rw [parseValFields1_dump]
  simp only [Option.some_bind]
  rw [parseValFields2_dump]
  simp only [Option.some_bind]
  rfl

/-- Reading a line holding exactly one emitted row yields that row. -/
theorem parseRowLine_dumpRow (r : Row) : parseRowLine (dumpRow r) = some r := by
  unfold parseRowLine
  rw [show dumpRow r = dumpRow r ++ [] by simp, parseRowChars_dumpRow]

/-- Hex digits are not newlines. -/
theorem newline_ne_hexDigit (n : Nat) (h : n < 16) : ¬('\n' = hexDigit n) := by
  interval_cases n <;> decide

/-- The escape of any character contains no raw newline. -/
theorem not_newline_escChar (c : Char) : '\n' ∉ escChar c := by
  unfold escChar
  split_ifs with h1 h2 h3 h4 h5 h6 h7 h8 h9
  · decide
  · decide
  · decide
  · decide
  · decide
  · decide
  · decide
  · simp only [List.mem_singleton]
    intro he
    rw [← he] at h8
    exact absurd h8 (by decide)
  · simp [hex4]
    refine ⟨?_, ?_, ?_, ?_⟩ <;> exact newline_ne_hexDigit _ (by omega)
  · simp [hex4]
    refine ⟨?_, ?_, ?_, ?_, ?_, ?_, ?_, ?_⟩ <;> exact newline_ne_hexDigit _ (by omega)

/-- An escaped string body contains no raw newline. -/
theorem not_newline_escString (s : List Char) : '\n' ∉ escString s := by
  simp only [escString, List.mem_flatMap, not_exists]
  intro c
  rw [not_and]
  intro _
  exact not_newline_escChar c

/-- An emitted string value contains no raw newline. -/
theorem not_newline_dumpString (s : String) : '\n' ∉ dumpString s := by
  have h := not_newline_escString s.toList
  simp only [String.toList] at h
  simp [dumpString, h]

/-- An emitted numeral contains no newline. -/
theorem not_newline_natDigits (n : Nat) : '\n' ∉ natDigits n := by
  intro hm
  have := natDigits_isDigit n '\n' hm
  exact absurd this (by decide)

/-- An emitted integer contains no newline. -/
theorem not_newline_intChars (i : Int) : '\n' ∉ intChars i := by
  unfold intChars
  split_ifs
  · simp only [List.mem_cons]
    push_neg
    exact ⟨by decide, not_newline_natDigits _⟩
  · exact not_newline_natDigits _

/-- An emitted scalar value contains no newline. -/
theorem not_newline_dumpJVal (v : JVal) : '\n' ∉ dumpJVal v := by
  cases v with
  | str s => exact not_newline_dumpString s
  | num i => exact not_newline_intChars i
  | null => decide

/-- An emitted object member contains no newline when neither its key nor
its value does. -/
theorem not_newline_dumpField (key : String) (v : List Char)
    (hk : '\n' ∉ key.toList) (hv : '\n' ∉ v) : '\n' ∉ dumpField key v := by
  simp only [String.toList] at hk
  simp [dumpField, hk, hv]

/-- An emitted Fact Row line contains no raw newline: everything is either
printable ASCII or backslash-escaped. -/
theorem not_newline_dumpRow (r : Row) : '\n' ∉ dumpRow r := by
  have f1 := not_newline_dumpField "cik" _ (by decide) (not_newline_dumpString r.cik)
  have f2 := not_newline_dumpField "ticker" _ (by decide) (not_newline_dumpString r.ticker)
  have f3 := not_newline_dumpField "concept" _ (by decide) (not_newline_dumpString r.concept)
  have f4 := not_newline_dumpField "unit" _ (by decide) (not_newline_dumpString r.unit)
  have f5 := not_newline_dumpField "period_end_date" _ (by decide)
    (not_newline_dumpJVal r.period_end_date)
  have f6 := not_newline_dumpField "val" _ (by decide) (not_newline_dumpJVal r.val)
  have f7 := not_newline_dumpField "accn" _ (by decide) (not_newline_dumpJVal r.accn)
  have f8 := not_newline_dumpField "fy" _ (by decide) (not_newline_dumpJVal r.fy)
  have f9 := not_newline_dumpField "fp" _ (by decide) (not_newline_dumpJVal r.fp)
  have f10 := not_newline_dumpField "form" _ (by decide) (not_newline_dumpJVal r.form)
  have f11 := not_newline_dumpField "filed" _ (by decide) (not_newline_dumpJVal r.filed)
  simp [dumpRow, f1, f2, f3, f4, f5, f6, f7, f8, f9, f10, f11]

/-- Splitting at the newline terminating a newline-free line yields that
line and leaves the rest. -/
theorem splitLinesAux_line (l : List Char) (hl : '\n' ∉ l) :
    ∀ acc rest, splitLinesAux acc (l ++ '\n' :: rest)
      = (acc.reverse ++ l) :: splitLinesAux [] rest := by
  induction l with
  | nil =>
    intro acc rest
    simp [splitLinesAux]
  | cons c cs ih =>
    intro acc rest
    have hc : ¬c = '\n' := fun he => hl (by simp [he])
    simp only [List.cons_append, splitLinesAux]
    rw [if_neg hc]
    show splitLinesAux (c :: acc) (cs ++ '\n' :: rest)
        = (acc.reverse ++ c :: cs) :: splitLinesAux [] rest
    rw [ih (fun hm => hl (List.mem_cons_of_mem c hm))]
    simp

/-- Claim C9: serializing any finite sequence of Fact Rows with
`write_ndjson` (one JSON object per line, insertion order preserved) and
re-parsing the text line by line yields exactly the original records,
field for field, in the original order. -/
theorem ndjson_roundtrip (rows : List Row) :
    (splitLines (write_ndjson rows)).mapM parseRowLine = some rows := by
  induction rows with
  | nil => rfl
  | cons r rest ih =>
    have hshape : write_ndjson (r :: rest) = dumpRow r ++ '\n' :: write_ndjson rest := by
      simp [write_ndjson]
    rw [hshape]
    unfold splitLines
    rw [splitLinesAux_line (dumpRow r) (not_newline_dumpRow r) [] (write_ndjson rest)]
    have hrest : splitLinesAux [] (write_ndjson rest) = splitLines (write_ndjson rest) := rfl
    rw [hrest, List.mapM_cons]
    simp only [List.reverse_nil, List.nil_append]
    rw [parseRowLine_dumpRow r, ih]
    rfl

end SecEdgar
